import Mathlib

/-!
# Verification of the WeighJS memory estimator

A shallow embedding of `src/weigh/weigh.ts` (the `Profiler` class and its
size strategies) together with proofs about the estimator's behaviour.

Modelling choices:
* JavaScript values are split into primitives (`JSValue`) and heap objects
  (`HObject`) referenced by address, so that reference identity, shared
  substructure and cyclic graphs are expressible.
* The recursion of `computeSize` / `_computeDetailed` is modelled with an
  explicit fuel parameter; a `none` result means the recursion did not
  complete within the given depth (for cyclic inputs that are never cut by
  the visitation tracker, every fuel yields `none`, i.e. the TS code
  recurses forever / overflows the stack).
* Machine numbers: all byte counts are `Nat`; `formatSize` takes an `Int`
  byte count (the public contract declares an integer) and does exact
  rational arithmetic for the `toFixed(2)` branches.
-/

namespace WeighJS

/-! ## Size unit table (`enum.ts`)

The members below are the ones present in the repository's `eMemorySize`
enum. -/

def eMemorySize.BOOLEAN : Nat := 4
def eMemorySize.NUMBER : Nat := 8
def eMemorySize.BIGINT : Nat := 8
def eMemorySize.STRING_CHAR : Nat := 2
def eMemorySize.DATE : Nat := 8
def eMemorySize.REFERENCE : Nat := 8
def eMemorySize.UNDEFINED : Nat := 1
def eMemorySize.NULL : Nat := 8

/-- Modelled from the spec: the code references the per-shape base overhead
constants `eMemorySize.DEFAULT_OBJECT`, `DEFAULT_ARRAY`, `DEFAULT_MAP`,
`DEFAULT_SET`, `DEFAULT_FUNCTION`, `DEFAULT_REGEXP` and `DEFAULT_WEAKREF`,
but the enum definition available under `src` does not contain these
members.  The spec describes them as fixed per-shape base overhead
constants ("per-shape base overheads for generic object, array, map, set,
regular expression, weak-reference, default callable"), non-zero for the
container shapes.  We therefore keep them abstract as the fields of this
structure and quantify theorems over them. -/
structure Overheads where
  DEFAULT_OBJECT : Nat
  DEFAULT_ARRAY : Nat
  DEFAULT_MAP : Nat
  DEFAULT_SET : Nat
  DEFAULT_FUNCTION : Nat
  DEFAULT_REGEXP : Nat
  DEFAULT_WEAKREF : Nat
deriving DecidableEq, Repr

/-- Representative concrete values for the missing overhead constants
(each positive, as the spec requires for the container shapes); used for
closed witnesses and counterexamples. -/
def specOverheads : Overheads :=
  { DEFAULT_OBJECT := 8
    DEFAULT_ARRAY := 16
    DEFAULT_MAP := 16
    DEFAULT_SET := 16
    DEFAULT_FUNCTION := 32
    DEFAULT_REGEXP := 16
    DEFAULT_WEAKREF := 4 }

/-! ## The value model -/

/-- A JavaScript value: primitives carried inline, objects by heap address.
`num` carries an integer payload (the sizing rules never depend on the
numeric value, only `String(n)` does, and the claims only exercise integral
numbers). -/
inductive JSValue where
  | null
  | undef
  | bool (b : Bool)
  | num (n : Int)
  | str (s : String)
  | bigint (n : Int)
  | sym (desc : Option String)
  | ref (a : Nat)
deriving DecidableEq, Repr

/-- A heap object.  `arr` carries the element list and any additional own
enumerable (non-index, non-`length`) properties.  `buffer` models a Node
`Buffer` by its decoded UTF-8 content (its `length`/`byteLength` is the
UTF-8 byte size, and `String(buffer)` is the content).  `typedArray`
carries its `Object.prototype.toString` tag (e.g. "int16array"), the
bytes-per-element of its constructor and its elements.  `fn` carries the
source text (`toString()`), own enumerable properties and the `prototype`
slot.  `url` models a URL-like object by its `toString()` string. -/
inductive HObject where
  | arr (elems : List JSValue) (props : List (String × JSValue))
  | obj (props : List (String × JSValue))
  | mapObj (entries : List (JSValue × JSValue))
  | setObj (elems : List JSValue)
  | buffer (content : String)
  | typedArray (tag : String) (bytesPerElem : Nat) (elems : List Int)
  | arrayBuffer (byteLength : Nat)
  | dataView (byteLength : Nat)
  | date
  | regexp (source : String) (flags : String) (props : List (String × JSValue))
  | fn (src : String) (props : List (String × JSValue)) (proto : Option JSValue)
  | weakref
  | url (href : String)
deriving DecidableEq, Repr

/-- The heap: address `a` refers to `h.get? a`. -/
abbrev Heap := List HObject

/-! ## `String(value)` coercion

Needed for the `URLSizeStrategy.supports` predicate
(`/^https?:/.test(value.toString())`) and for the `key:`/`val:` labels in
the detailed Map branch (`String(k)`).  Array stringification joins the
elements with `","` rendering `null`/`undefined` as `""` and is cycle-safe
(re-entering an array already being stringified yields `""`), hence the
`seen` stack; the fuel is bounded by the number of heap addresses plus one,
which the `seen`-stack cutting never exceeds.  `Date` stringification
(a locale/time string) is not modelled faithfully (no claim stringifies a
Date); all other shapes follow the runtime's behaviour. -/
def jsStringF (h : Heap) : Nat → List Nat → JSValue → String
  | _, _, .null => "null"
  | _, _, .undef => "undefined"
  | _, _, .bool b => if b then "true" else "false"
  | _, _, .num n => toString n
  | _, _, .str s => s
  | _, _, .bigint n => toString n
  | _, _, .sym d => "Symbol(" ++ d.getD "" ++ ")"
  | 0, _, .ref _ => ""
  | fuel+1, seen, .ref a =>
    if a ∈ seen then "" else
    match h.get? a with
    | none => ""
    | some (.arr elems _) =>
      String.intercalate ","
        (elems.map (fun e =>
          match e with
          | .null => ""
          | .undef => ""
          | _ => jsStringF h fuel (a :: seen) e))
    | some (.obj _) => "[object Object]"
    | some (.mapObj _) => "[object Map]"
    | some (.setObj _) => "[object Set]"
    | some (.buffer content) => content
    | some (.typedArray _ _ elems) => String.intercalate "," (elems.map toString)
    | some (.arrayBuffer _) => "[object ArrayBuffer]"
    | some (.dataView _) => "[object DataView]"
    | some .date => "[object Date]"
    | some (.regexp source flags _) => "/" ++ source ++ "/" ++ flags
    | some (.fn src _ _) => src
    | some .weakref => "[object WeakRef]"
    | some (.url href) => href

/-- Computes `String(v)` / `v.toString()` for a value in heap `h`. -/
def jsString (h : Heap) (v : JSValue) : String :=
  jsStringF h (h.length + 1) [] v

/-- Decides an anchored prefix match on the character sequence of a string. -/
def strBeginsWith (s p : String) : Bool :=
  p.data.isPrefixOf s.data

/-- The regular expression `/^https?:/` of `URLSizeStrategy.supports`:
matches exactly the strings beginning with `"http:"` or `"https:"`. -/
def urlTest (s : String) : Bool :=
  strBeginsWith s "http:" || strBeginsWith s "https:"

/-- Models `URLSizeStrategy.supports` (weigh.ts:60-62):
`value?.toString?.() && typeof value.toString === "function" &&
/^https?:/.test(value.toString())`.  For `null`/`undefined` the optional
chaining yields `undefined` (falsy); every other modelled value has a
callable `toString`, and a string matching `/^https?:/` is nonempty, hence
truthy. -/
def URLSizeStrategy.supports (h : Heap) (v : JSValue) : Bool :=
  match v with
  | .null => false
  | .undef => false
  | _ => urlTest (jsString h v)

/-! ## Visitation tracker (weigh.ts:227-233)

`isVisited` requires `typeof value === "object" && value !== null`;
`markVisited` likewise only inserts such values.  Note that the `typeof` of
a function is `"function"`, not `"object"`: functions are NEVER tracked —
`isVisited` is constantly false for them and `markVisited` is a no-op. -/

def Profiler.isVisited (h : Heap) (vis : List Nat) (v : JSValue) : Bool :=
  match v with
  | .ref a =>
    (match h.get? a with
     | some (.fn _ _ _) => false
     | _ => true) && a ∈ vis
  | _ => false

def Profiler.markVisited (h : Heap) (vis : List Nat) (v : JSValue) : List Nat :=
  match v with
  | .ref a =>
    match h.get? a with
    | some (.fn _ _ _) => vis
    | _ => a :: vis
  | _ => vis

/-- Models `fn.prototype && typeof fn.prototype === "object"` (weigh.ts:131,275).
`typeof` of a reference is `"object"` unless the referent is a function
(`"function"`), and `null` is falsy. -/
def protoIsObject (h : Heap) (pv : JSValue) : Bool :=
  match pv with
  | .ref b =>
    match h.get? b with
    | some (.fn _ _ _) => false
    | _ => true
  | _ => false

/-- The own enumerable index properties of an array: keys `"0"`, `"1"`, …
paired with the elements (what `for..in` yields before any extra
properties). -/
def idxProps (elems : List JSValue) : List (String × JSValue) :=
  elems.enum.map (fun p => (Nat.repr p.1, p.2))

/-! ## Walk helpers for the scalar path

Each models a loop of a strategy body: the accumulated size and the
visited set are threaded left to right exactly as the instance-mutable
`this.visited` is in TS, and `none` (fuel exhaustion in a child) aborts
the whole computation. -/

/-- The symbol description cost, shared verbatim by weigh.ts:22 and
weigh.ts:256: `value.description ? value.description.length * STRING_CHAR
: 0` (an empty description is falsy). -/
def symDescCost (d : Option String) : Nat :=
  match d with
  | some s => if s = "" then 0 else s.length * eMemorySize.STRING_CHAR
  | none => 0

/-- Models `for (const item of value) size += profiler.computeSize(item)`. -/
def sumList (f : JSValue → List Nat → Option (Nat × List Nat)) :
    List JSValue → Nat → List Nat → Option (Nat × List Nat)
  | [], s, vis => some (s, vis)
  | x :: xs, s, vis =>
    match f x vis with
    | none => none
    | some (n, vis') => sumList f xs (s + n) vis'

/-- A `for..in` own-property loop charging
`key.length * STRING_CHAR + computeSize(value[key])` for every key the
`keep` filter admits. -/
def sumProps (f : JSValue → List Nat → Option (Nat × List Nat))
    (keep : String → Bool) :
    List (String × JSValue) → Nat → List Nat → Option (Nat × List Nat)
  | [], s, vis => some (s, vis)
  | (k, x) :: xs, s, vis =>
    if keep k then
      match f x vis with
      | none => none
      | some (n, vis') =>
        sumProps f keep xs (s + k.length * eMemorySize.STRING_CHAR + n) vis'
    else sumProps f keep xs s vis

/-- The Map entry loop:
`size += profiler.computeSize(key) + profiler.computeSize(val)`. -/
def sumPairs (f : JSValue → List Nat → Option (Nat × List Nat)) :
    List (JSValue × JSValue) → Nat → List Nat → Option (Nat × List Nat)
  | [], s, vis => some (s, vis)
  | (k, v) :: rest, s, vis =>
    match f k vis with
    | none => none
    | some (nk, vis1) =>
      match f v vis1 with
      | none => none
      | some (nv, vis2) => sumPairs f rest (s + nk + nv) vis2

/-! ## The scalar path: `Profiler.computeSize` with the default strategies

`computeSize` (weigh.ts:220-225) finds the first strategy whose `supports`
accepts the value.  With the default list the order is: `ArrayStrategy`,
`RegExpStrategy`, `WeakRefStrategy`, `URLSizeStrategy`,
`TypedArraySizeStrategy`, `ArrayBufferStrategy`, `DataViewStrategy`,
`FunctionSizeStrategy`, `DefaultSizeStrategy`.  The dispatch below matches
on the shape and encodes this priority order; `URLSizeStrategy.supports`
is checked explicitly wherever a shape's `String(value)` can begin with
`http:`/`https:` (plain strings, numbers/bigints/symbols — the predicate
is evaluated faithfully —, Buffers, typed arrays, functions and URL-like
objects), since `URLSizeStrategy` precedes `TypedArraySizeStrategy`,
`FunctionSizeStrategy` and `DefaultSizeStrategy` in the list; shapes whose
stringification is a fixed non-`http` constant (`[object X]`, `/…/` for
regexps, `true`/`false`, `null`-like) can never satisfy it.  Note that a
Node `Buffer` is an instance of `Uint8Array`, so `TypedArraySizeStrategy`
claims Buffers (the `Buffer.isBuffer` branch of `DefaultSizeStrategy`,
like its `Array.isArray` and `RegExp` branches at weigh.ts:28,42,44, is
unreachable under the default chain).  The visited check of
`DefaultSizeStrategy` (weigh.ts:25-26) guards only the shapes that reach
it — `ArrayStrategy`, `RegExpStrategy` and `FunctionSizeStrategy` never
consult the tracker. -/
def computeSizeF (ov : Overheads) (h : Heap) :
    Nat → JSValue → List Nat → Option (Nat × List Nat)
  | 0, _, _ => none
  | fuel+1, v, vis =>
    match v with
    -- DefaultSizeStrategy, primitive switch (weigh.ts:11-23);
    -- URLSizeStrategy precedes it in the chain.
    | .null => some (eMemorySize.NULL, vis)
    | .undef => some (eMemorySize.UNDEFINED, vis)
    | .str s =>
      if URLSizeStrategy.supports h v then
        some (ov.DEFAULT_OBJECT + s.length * eMemorySize.STRING_CHAR, vis)
      else some (s.length * eMemorySize.STRING_CHAR, vis)
    | .num _ =>
      if URLSizeStrategy.supports h v then
        some (ov.DEFAULT_OBJECT + (jsString h v).length * eMemorySize.STRING_CHAR, vis)
      else some (eMemorySize.NUMBER, vis)
    | .bool _ => some (eMemorySize.BOOLEAN, vis)
    | .bigint _ =>
      if URLSizeStrategy.supports h v then
        some (ov.DEFAULT_OBJECT + (jsString h v).length * eMemorySize.STRING_CHAR, vis)
      else some (eMemorySize.BIGINT, vis)
    | .sym d =>
      if URLSizeStrategy.supports h v then
        some (ov.DEFAULT_OBJECT + (jsString h v).length * eMemorySize.STRING_CHAR, vis)
      else some (symDescCost d, vis)
    | .ref a =>
      match h.get? a with
      | none => some (0, vis)  -- dangling address: model artifact, unreachable in JS
      | some (.arr elems props) =>
        -- ArrayStrategy (weigh.ts:176-188): DEFAULT_ARRAY, the elements,
        -- then the for..in walk over the index keys and any extra own
        -- enumerable properties, filtering out "length".  No visited check.
        match sumList (computeSizeF ov h fuel) elems ov.DEFAULT_ARRAY vis with
        | none => none
        | some (s1, vis1) =>
          sumProps (computeSizeF ov h fuel) (fun k => !(k == "length"))
            (idxProps elems ++ props) s1 vis1
      | some (.regexp source flags props) =>
        -- RegExpStrategy (weigh.ts:152-168).  No visited check.
        match sumProps (computeSizeF ov h fuel)
            (fun k => !(k == "source") && !(k == "flags") && !(k == "lastIndex"))
            props
            (ov.DEFAULT_REGEXP + source.length * eMemorySize.STRING_CHAR
              + flags.length * eMemorySize.STRING_CHAR) vis with
        | none => none
        | some (s1, vis1) => some (s1 + eMemorySize.NUMBER, vis1)
      | some .weakref =>
        -- WeakRefStrategy (weigh.ts:142-144).
        some (eMemorySize.REFERENCE + ov.DEFAULT_WEAKREF, vis)
      | some (.url href) =>
        -- URLSizeStrategy (weigh.ts:64-66); if the href does not match
        -- /^https?:/ the value falls through to DefaultSizeStrategy's
        -- generic object walk (a URL has no own enumerable properties).
        if urlTest href then
          some (ov.DEFAULT_OBJECT + href.length * eMemorySize.STRING_CHAR, vis)
        else if a ∈ vis then some (eMemorySize.REFERENCE, vis)
        else some (ov.DEFAULT_OBJECT, a :: vis)
      | some (.typedArray _ bytesPerElem elems) =>
        -- URLSizeStrategy precedes TypedArraySizeStrategy (weigh.ts:88-90).
        if URLSizeStrategy.supports h v then
          some (ov.DEFAULT_OBJECT + (jsString h v).length * eMemorySize.STRING_CHAR, vis)
        else some (bytesPerElem * elems.length, vis)
      | some (.buffer content) =>
        -- Buffer instanceof Uint8Array: TypedArraySizeStrategy reports
        -- byteLength; but URLSizeStrategy precedes it and Buffer#toString
        -- UTF-8-decodes the contents.
        if urlTest content then
          some (ov.DEFAULT_OBJECT + content.length * eMemorySize.STRING_CHAR, vis)
        else some (content.utf8ByteSize, vis)
      | some (.arrayBuffer byteLength) =>
        -- ArrayBufferStrategy (weigh.ts:98-100).
        some (byteLength, vis)
      | some (.dataView byteLength) =>
        -- DataViewStrategy (weigh.ts:108-110).
        some (byteLength, vis)
      | some (.fn src props proto) =>
        -- URLSizeStrategy precedes FunctionSizeStrategy; a function's
        -- toString() is its source text.
        if urlTest src then
          some (ov.DEFAULT_OBJECT + src.length * eMemorySize.STRING_CHAR, vis)
        else
          -- FunctionSizeStrategy (weigh.ts:118-134).  No visited check.
          match sumProps (computeSizeF ov h fuel) (fun _ => true) props
              (ov.DEFAULT_FUNCTION + src.length * eMemorySize.STRING_CHAR) vis with
          | none => none
          | some (s1, vis1) =>
            match proto with
            | some pv =>
              if protoIsObject h pv then
                match computeSizeF ov h fuel pv vis1 with
                | none => none
                | some (s2, vis2) => some (s1 + s2, vis2)
              else some (s1, vis1)
            | none => some (s1, vis1)
      | some (.mapObj entries) =>
        -- DefaultSizeStrategy Map branch (weigh.ts:30-34), after the
        -- visited check and mark (weigh.ts:25-26).
        if a ∈ vis then some (eMemorySize.REFERENCE, vis)
        else sumPairs (computeSizeF ov h fuel) entries ov.DEFAULT_MAP (a :: vis)
      | some (.setObj elems) =>
        -- DefaultSizeStrategy Set branch (weigh.ts:36-40).
        if a ∈ vis then some (eMemorySize.REFERENCE, vis)
        else sumList (computeSizeF ov h fuel) elems ov.DEFAULT_SET (a :: vis)
      | some .date =>
        -- DefaultSizeStrategy Date branch (weigh.ts:43).
        if a ∈ vis then some (eMemorySize.REFERENCE, vis)
        else some (eMemorySize.DATE, a :: vis)
      | some (.obj props) =>
        -- DefaultSizeStrategy generic object walk (weigh.ts:46-55).
        if a ∈ vis then some (eMemorySize.REFERENCE, vis)
        else sumProps (computeSizeF ov h fuel) (fun _ => true) props
          ov.DEFAULT_OBJECT (a :: vis)

/-- Models `Profiler.sizeOf` (weigh.ts:215-218): reset the visitation set, then
`computeSize`.  Only the byte count is exposed. -/
def sizeOfF (ov : Overheads) (h : Heap) (fuel : Nat) (v : JSValue) : Option Nat :=
  (computeSizeF ov h fuel v []).map Prod.fst

/-! ## The detailed path: `IMemoryReport` and `_computeDetailed` -/

/-- Models `IMemoryReport` (types.ts): a type label, a byte count, and an optional
record of child reports.  The record is modelled as an association list in
insertion order; assigning to an existing key overwrites in place (JS
string-keyed records keep the original insertion position). -/
inductive Report where
  | mk (type : String) (size : Nat) (children : Option (List (String × Report)))

def Report.type : Report → String
  | .mk t _ _ => t

def Report.size : Report → Nat
  | .mk _ s _ => s

def Report.children : Report → Option (List (String × Report))
  | .mk _ _ c => c

/-- Models `record[k] = r` on a string-keyed JS record: overwrite in place if the
key exists, else append. -/
def recInsert : List (String × Report) → String → Report → List (String × Report)
  | [], k, r => [(k, r)]
  | (k0, r0) :: rest, k, r =>
    if k0 = k then (k, r) :: rest else (k0, r0) :: recInsert rest k r

/-- The own-property loop of the function and generic-object branches
(weigh.ts:267-273, 338-344): `size += key.length * STRING_CHAR +
child.size; children[key] = child`. -/
def detProps (f : JSValue → List Nat → Option (Report × List Nat)) :
    List (String × JSValue) → Nat → List (String × Report) → List Nat →
    Option (Nat × List (String × Report) × List Nat)
  | [], s, ch, vis => some (s, ch, vis)
  | (k, x) :: xs, s, ch, vis =>
    match f x vis with
    | none => none
    | some (r, vis') =>
      detProps f xs (s + k.length * eMemorySize.STRING_CHAR + r.size)
        (recInsert ch k r) vis'

/-- The element loops of the array and set branches (weigh.ts:291-295,
321-326): `children[index] = detail; size += detail.size` — the numeric
index becomes the record key `String(index)`. -/
def detIdxList (f : JSValue → List Nat → Option (Report × List Nat)) :
    List JSValue → Nat → Nat → List (String × Report) → List Nat →
    Option (Nat × List (String × Report) × List Nat)
  | [], _, s, ch, vis => some (s, ch, vis)
  | x :: xs, i, s, ch, vis =>
    match f x vis with
    | none => none
    | some (r, vis') =>
      detIdxList f xs (i + 1) (s + r.size) (recInsert ch (Nat.repr i) r) vis'

/-- The Map entry loop (weigh.ts:304-312).  Note that BOTH labels are
derived from the stringified KEY: `key:${String(k)}` and `val:${String(k)}`
(weigh.ts:307-308); two entries whose keys stringify identically therefore
overwrite each other's children while still both contributing to `size`. -/
def detMapEntries (h : Heap)
    (f : JSValue → List Nat → Option (Report × List Nat)) :
    List (JSValue × JSValue) → Nat → List (String × Report) → List Nat →
    Option (Nat × List (String × Report) × List Nat)
  | [], s, ch, vis => some (s, ch, vis)
  | (k, v) :: rest, s, ch, vis =>
    match f k vis with
    | none => none
    | some (kr, vis1) =>
      match f v vis1 with
      | none => none
      | some (vr, vis2) =>
        detMapEntries h f rest (s + kr.size + vr.size)
          (recInsert (recInsert ch ("key:" ++ jsString h k) kr)
            ("val:" ++ jsString h k) vr) vis2

/-- The `Object.prototype.toString.call(value).slice(8, -1).toLowerCase()`
type tag (weigh.ts:245) for heap objects, used for the reference leaves of
revisited composites. -/
def hoTag : HObject → String
  | .arr _ _ => "array"
  | .obj _ => "object"
  | .mapObj _ => "map"
  | .setObj _ => "set"
  | .buffer _ => "uint8array"
  | .typedArray tag _ _ => tag
  | .arrayBuffer _ => "arraybuffer"
  | .dataView _ => "dataview"
  | .date => "date"
  | .regexp _ _ _ => "regexp"
  | .fn _ _ _ => "function"
  | .weakref => "weakref"
  | .url _ => "url"

/-- Models `Profiler._computeDetailed` (weigh.ts:244-347).  This method performs
NO strategy dispatch: it hard-codes its own shape analysis, so typed
arrays, ArrayBuffers, DataViews, WeakRefs and URL-like objects all fall
through to the final generic object walk (for a typed array, `for..in`
enumerates the index properties with number values; the others have no
own enumerable properties), and — unlike the scalar path — no branch adds
any `DEFAULT_*` base overhead, `null` is costed with the UNDEFINED
constant (weigh.ts:247), and the array branch ignores extra non-index
properties.  The function guard at weigh.ts:261-262 uses
`isVisited`/`markVisited`, which are constantly trivial for functions
(`typeof` is `"function"`). -/
def computeDetailedF (ov : Overheads) (h : Heap) :
    Nat → JSValue → List Nat → Option (Report × List Nat)
  | 0, _, _ => none
  | fuel+1, v, vis =>
    match v with
    | .null => some (⟨"null", eMemorySize.UNDEFINED, none⟩, vis)
    | .undef => some (⟨"undefined", eMemorySize.UNDEFINED, none⟩, vis)
    | .str s => some (⟨"string", s.length * eMemorySize.STRING_CHAR, none⟩, vis)
    | .num _ => some (⟨"number", eMemorySize.NUMBER, none⟩, vis)
    | .bool _ => some (⟨"boolean", eMemorySize.BOOLEAN, none⟩, vis)
    | .bigint _ => some (⟨"bigint", eMemorySize.BIGINT, none⟩, vis)
    | .sym d => some (⟨"symbol", symDescCost d, none⟩, vis)
    | .ref a =>
      match h.get? a with
      | none => some (⟨"object", 0, none⟩, vis)  -- dangling address: model artifact
      | some (.fn src props proto) =>
        -- weigh.ts:260-282; the isVisited guard can never fire for a
        -- function and markVisited is a no-op, both checks are kept
        -- faithfully.
        if Profiler.isVisited h vis v then
          some (⟨"function", eMemorySize.REFERENCE, none⟩, vis)
        else
          match detProps (computeDetailedF ov h fuel) props
              (src.length * eMemorySize.STRING_CHAR) []
              (Profiler.markVisited h vis v) with
          | none => none
          | some (s1, ch1, vis1) =>
            match proto with
            | some pv =>
              if protoIsObject h pv then
                match computeDetailedF ov h fuel pv vis1 with
                | none => none
                | some (pr, vis2) =>
                  some (⟨"function", s1 + pr.size,
                    some (recInsert ch1 "prototype" pr)⟩, vis2)
              else some (⟨"function", s1, some ch1⟩, vis1)
            | none => some (⟨"function", s1, some ch1⟩, vis1)
      | some ho =>
        -- weigh.ts:284-285: visited check, then mark.
        if Profiler.isVisited h vis v then
          some (⟨hoTag ho, eMemorySize.REFERENCE, none⟩, vis)
        else
          match ho with
          | .arr elems _ =>
            -- weigh.ts:287-298: elements only; extra own properties of
            -- the array are NOT walked by the detailed path.
            match detIdxList (computeDetailedF ov h fuel) elems 0 0 []
                (Profiler.markVisited h vis v) with
            | none => none
            | some (s, ch, vis') => some (⟨"array", s, some ch⟩, vis')
          | .mapObj entries =>
            -- weigh.ts:300-315.
            match detMapEntries h (computeDetailedF ov h fuel) entries 0 []
                (Profiler.markVisited h vis v) with
            | none => none
            | some (s, ch, vis') => some (⟨"map", s, some ch⟩, vis')
          | .setObj elems =>
            -- weigh.ts:317-329.
            match detIdxList (computeDetailedF ov h fuel) elems 0 0 []
                (Profiler.markVisited h vis v) with
            | none => none
            | some (s, ch, vis') => some (⟨"set", s, some ch⟩, vis')
          | .buffer content =>
            -- weigh.ts:331: `value.length` is the byte length.
            some (⟨"buffer", content.utf8ByteSize, none⟩, Profiler.markVisited h vis v)
          | .date =>
            -- weigh.ts:332.
            some (⟨"date", eMemorySize.DATE, none⟩, Profiler.markVisited h vis v)
          | .regexp source flags _ =>
            -- weigh.ts:333: `value.toString().length * STRING_CHAR`;
            -- custom properties are NOT walked by the detailed path.
            some (⟨"regexp",
              ("/" ++ source ++ "/" ++ flags).length * eMemorySize.STRING_CHAR,
              none⟩, Profiler.markVisited h vis v)
          | .typedArray _ _ elems =>
            -- falls through to the generic walk (weigh.ts:335-346):
            -- for..in over a typed array yields its index properties.
            match detProps (computeDetailedF ov h fuel)
                ((elems.enum).map (fun p => (Nat.repr p.1, JSValue.num p.2))) 0 []
                (Profiler.markVisited h vis v) with
            | none => none
            | some (s, ch, vis') => some (⟨"object", s, some ch⟩, vis')
          | .obj props =>
            -- generic walk (weigh.ts:335-346); no base overhead.
            match detProps (computeDetailedF ov h fuel) props 0 []
                (Profiler.markVisited h vis v) with
            | none => none
            | some (s, ch, vis') => some (⟨"object", s, some ch⟩, vis')
          | .arrayBuffer _ =>
            some (⟨"object", 0, some []⟩, Profiler.markVisited h vis v)
          | .dataView _ =>
            some (⟨"object", 0, some []⟩, Profiler.markVisited h vis v)
          | .weakref =>
            some (⟨"object", 0, some []⟩, Profiler.markVisited h vis v)
          | .url _ =>
            -- a URL has no own enumerable properties.
            some (⟨"object", 0, some []⟩, Profiler.markVisited h vis v)
          | .fn src props proto =>
            -- unreachable: functions are handled above; kept for
            -- exhaustiveness with the same body shape.
            match detProps (computeDetailedF ov h fuel) props
                (src.length * eMemorySize.STRING_CHAR) []
                (Profiler.markVisited h vis v) with
            | none => none
            | some (s1, ch1, vis1) =>
              match proto with
              | some pv =>
                if protoIsObject h pv then
                  match computeDetailedF ov h fuel pv vis1 with
                  | none => none
                  | some (pr, vis2) =>
                    some (⟨"function", s1 + pr.size,
                      some (recInsert ch1 "prototype" pr)⟩, vis2)
                else some (⟨"function", s1, some ch1⟩, vis1)
              | none => some (⟨"function", s1, some ch1⟩, vis1)

/-- Models `Profiler.computeDetailedSize` (weigh.ts:239-242): reset the
visitation set, then `_computeDetailed`. -/
def computeDetailedSizeF (ov : Overheads) (h : Heap) (fuel : Nat)
    (v : JSValue) : Option Report :=
  (computeDetailedF ov h fuel v []).map Prod.fst

/-! ## The strategy-list mechanism (`ISizeStrategy`, custom lists)

`computeSizeF` above is `Profiler.computeSize` specialised to the default
strategy list.  The general dispatch line (weigh.ts:220-225) and the
customisation points (`constructor` with a replacement list,
`addStrategy`) are modelled here over arbitrary strategy lists; a custom
strategy is a `supports` predicate, a size function and an optional
`detailedSizeOf` hook (types.ts:7-11). -/

structure SizeStrategy where
  supports : JSValue → Bool
  sizeOfFn : JSValue → Nat
  detailedSizeOf : Option (JSValue → Report) := none

/-- Models `const strategy = this.strategies.find((s) => s.supports(value));
if (!strategy) return 0; return strategy.sizeOf(value, this);`
(weigh.ts:220-225). -/
def computeSizeWith (strategies : List SizeStrategy) (v : JSValue) : Nat :=
  match strategies.find? (fun s => s.supports v) with
  | none => 0
  | some s => s.sizeOfFn v

/-- A `Profiler` as configured state: the ordered strategy list
(weigh.ts:192-213). -/
structure Profiler where
  strategies : List SizeStrategy

/-- Models `addStrategy` (weigh.ts:235-237): `this.strategies.unshift(strategy)` —
the new strategy is consulted before all previously registered ones. -/
def Profiler.addStrategy (p : Profiler) (s : SizeStrategy) : Profiler :=
  ⟨s :: p.strategies⟩

/-- Models `Profiler.computeDetailedSize` as a method of the configured profiler:
the body of `_computeDetailed` (weigh.ts:244-347) never reads
`this.strategies` and never calls any strategy's `detailedSizeOf` hook, so
the strategy list of the receiver is simply unused. -/
def Profiler.computeDetailedSize (_p : Profiler) (ov : Overheads) (h : Heap)
    (fuel : Nat) (v : JSValue) : Option Report :=
  computeDetailedSizeF ov h fuel v

/-! ## `formatSize` (weigh.ts:349-357) -/

/-- Models `eMemoryUnit` (enum.ts): string-valued unit tags. -/
def eMemoryUnit.BYTE : String := "B"
def eMemoryUnit.KILOBYTE : String := "KB"
def eMemoryUnit.MEGABYTE : String := "MB"
def eMemoryUnit.GIGABYTE : String := "GB"

/-- Renders `n` hundredths as a fixed-two-decimals string: integer part,
`"."`, two fractional digits. -/
def fixedDigits (n : Int) : String :=
  let fs : String := toString (n % 100).toNat
  toString (n / 100) ++ "." ++ (if fs.length = 1 then "0" ++ fs else fs)

/-- Models `Number.prototype.toFixed(2)` on an exact rational: round half-up to
two decimals and render with exactly two fractional digits.  (JS applies
this to a binary double; on the integral quotients the claims exercise the
two agree exactly.)  Only used for non-negative quotients here. -/
def toFixed2 (q : ℚ) : String :=
  fixedDigits ⌊q * 100 + 1 / 2⌋

/-- Models `Profiler.formatSize(bytes, unit)` (weigh.ts:349-357); the public
contract declares an integer byte count.  The `switch` falls back to byte
formatting for any unrecognised unit (weigh.ts:355). -/
def Profiler.formatSize (bytes : Int) (unit : String) : String :=
  if unit = eMemoryUnit.BYTE then s!"{bytes} B"
  else if unit = eMemoryUnit.KILOBYTE then toFixed2 ((bytes : ℚ) / 1024) ++ " KB"
  else if unit = eMemoryUnit.MEGABYTE then toFixed2 ((bytes : ℚ) / 1024 ^ 2) ++ " MB"
  else if unit = eMemoryUnit.GIGABYTE then toFixed2 ((bytes : ℚ) / 1024 ^ 3) ++ " GB"
  else s!"{bytes} B"

/-! ## Concrete inputs used by witnesses and counterexamples -/

/-- Heap for the self-referential plain object (`a.self = a` on an empty object). -/
def selfRefHeap : Heap := [.obj [("self", .ref 0)]]

/-- Heap for `a = []; a.push(a);` — the self-referential array. -/
def cycArrHeap : Heap := [.arr [.ref 0] []]

/-- Heap for `f.self = f` — a function whose own enumerable
property refers back to the function itself (`prototype` slot absent, as
for an arrow function). -/
def cycFnHeap : Heap := [.fn "function f() {}" [("self", .ref 0)] none]

/-- Heap holding an empty array, empty object, `new Map()` and `new Set()` at addresses 0..3. -/
def emptiesHeap : Heap := [.arr [] [], .obj [], .mapObj [], .setObj []]

/-- Heap for `new Map([[true, 0], ["true", 0]])` — two distinct keys whose
stringifications collide (`String(true) === String("true") === "true"`). -/
def collideHeap : Heap := [.mapObj [(.bool true, .num 0), (.str "true", .num 0)]]

/-- Heap for `[0]` — a one-element array with no extra properties. -/
def oneElemArrHeap : Heap := [.arr [.num 0] []]

/-- The primitive values on which the scalar and the detailed path use the
same cost rule: every primitive except `null` (costed `NULL` by the scalar
path but `UNDEFINED` by the detailed path) and except values claimed by
`URLSizeStrategy` (strings and other primitives whose stringification
begins with `http:`/`https:` — for numbers, booleans, bigints and symbols
the predicate never fires, but this is recorded as a hypothesis rather
than proved about decimal/`Symbol(…)` strings). -/
def primAgrees (h : Heap) (v : JSValue) : Bool :=
  match v with
  | .null => false
  | .ref _ => false
  | .undef => true
  | _ => !(URLSizeStrategy.supports h v)

/-- The scalar cost of a primitive not claimed by `URLSizeStrategy`
(`DefaultSizeStrategy`, weigh.ts:11-23), written as a closed table. -/
def primCost (v : JSValue) : Nat :=
  match v with
  | .null => eMemorySize.NULL
  | .undef => eMemorySize.UNDEFINED
  | .bool _ => eMemorySize.BOOLEAN
  | .num _ => eMemorySize.NUMBER
  | .str s => s.length * eMemorySize.STRING_CHAR
  | .bigint _ => eMemorySize.BIGINT
  | .sym d => symDescCost d
  | .ref _ => 0

/-- A primitive (non-reference) value not claimed by `URLSizeStrategy`. -/
def simplePrim (h : Heap) (v : JSValue) : Bool :=
  match v with
  | .ref _ => false
  | _ => !(URLSizeStrategy.supports h v)

/-! ## The per-node size invariant of detailed reports -/

/-- Sum of the direct children's sizes. -/
def childrenSizes (cs : List (String × Report)) : Nat :=
  (cs.map (fun kc => kc.2.size)).sum

/-- Sum over children of label cost plus child size (the accounting of the
generic object walk). -/
def childrenPropCost (cs : List (String × Report)) : Nat :=
  (cs.map (fun kc =>
    kc.1.length * eMemorySize.STRING_CHAR + kc.2.size)).sum

/-- The children contribution of a function node: the `prototype` child is
charged without a label cost, every other child with one. -/
def funChildrenCost (cs : List (String × Report)) : Nat :=
  (cs.map (fun kc =>
    if kc.1 = "prototype" then kc.2.size
    else kc.1.length * eMemorySize.STRING_CHAR + kc.2.size)).sum

mutual

/-- The per-node size invariant, checked recursively on every node:
a leaf is unconstrained (its size IS its own overhead); an `array`, `set`
or `map` node's size must equal the sum of its children's sizes (these
branches have zero own overhead in the detailed path); an `object` node's
size must equal the sum of label costs plus children sizes; a `function`
node's size must be at least its children contribution (its own overhead —
the source-text cost — is not recoverable from the report, so the
invariant asserts a well-defined non-negative own overhead). -/
def goodReportB : Report → Bool
  | .mk _ _ none => true
  | .mk t s (some cs) =>
    (if t = "object" then s == childrenPropCost cs
     else if t = "function" then decide (funChildrenCost cs ≤ s)
     else s == childrenSizes cs)
    && goodChildrenB cs

def goodChildrenB : List (String × Report) → Bool
  | [] => true
  | kc :: rest => goodReportB kc.2 && goodChildrenB rest

end

/-- Whether a heap object is a function (the only shape whose `typeof` is
not `"object"`). -/
def isFnObj : HObject → Bool
  | .fn _ _ _ => true
  | _ => false

/-- Well-formedness facts that hold for real JS objects but must be
imposed on the list-based model: own enumerable property keys are pairwise
distinct, a function's `for..in` never yields `"prototype"` (that own
property is non-enumerable), and — the hypothesis the Map-branch label
collision forces — the stringified keys of a Map's entries are pairwise
distinct. -/
def hObjOk (h : Heap) : HObject → Bool
  | .obj props => decide (props.map Prod.fst).Nodup
  | .fn _ props _ =>
    decide (props.map Prod.fst).Nodup
      && decide ("prototype" ∉ props.map Prod.fst)
  | .mapObj entries => decide ((entries.map (fun e => jsString h e.1)).Nodup)
  | _ => true

/-- All objects of the heap are well-formed. -/
def heapOk (h : Heap) : Bool :=
  h.all (hObjOk h)

/-! ## Decimal digit strings (for `String(index)` record keys)

`Nat.repr` is the decimal rendering used by JS for numeric record keys;
the freshness of the keys inserted by the array/set loops of
`_computeDetailed` reduces to its injectivity, proved here from scratch. -/

/-- The most-significant-first decimal digit characters of `n`. -/
def digitsAux (n : Nat) : List Char :=
  if h : n / 10 = 0 then [Nat.digitChar (n % 10)]
  else digitsAux (n / 10) ++ [Nat.digitChar (n % 10)]
decreasing_by
  exact Nat.div_lt_self (Nat.pos_of_ne_zero fun hn => h (by simp [hn])) (by omega)

/-- Numeric value of a decimal digit character. -/
def charVal (c : Char) : Nat :=
  c.toNat - 48

/-! # Theorems -/

/-! ## Injectivity of the decimal rendering -/

theorem toDigitsCore_eq_digitsAux (fuel : Nat) :
    ∀ (n : Nat) (ds : List Char), n < fuel →
      Nat.toDigitsCore 10 fuel n ds = digitsAux n ++ ds := by
  induction fuel with
  | zero => intro n ds hn; omega
  | succ f ih =>
    intro n ds hn
    rw [Nat.toDigitsCore]
    by_cases h10 : n / 10 = 0
    · rw [digitsAux, dif_pos h10]
      simp [h10]
    · conv_rhs => rw [digitsAux]
      rw [dif_neg h10, if_neg h10]
      have hlt : n / 10 < f := by
        have h1 : n / 10 < n := Nat.div_lt_self (by omega) (by omega)
        omega
      rw [ih (n / 10) _ hlt]
      simp [List.append_assoc]

theorem charVal_digitChar (d : Nat) (hd : d < 10) :
    charVal (Nat.digitChar d) = d := by
  interval_cases d <;> rfl

theorem foldl_digitsAux (n : Nat) :
    ∀ a : Nat,
      (digitsAux n).foldl (fun acc c => 10 * acc + charVal c) a
        = a * 10 ^ (digitsAux n).length + n := by
  induction n using Nat.strong_induction_on with
  | _ n ih =>
    intro a
    by_cases h10 : n / 10 = 0
    · have hn : n < 10 := by omega
      rw [digitsAux, dif_pos h10]
      simp [charVal_digitChar (n % 10) (Nat.mod_lt n (by omega) : n % 10 < 10)]
      omega
    · have hpos : 0 < n := by
        rcases Nat.eq_zero_or_pos n with h | h
        · subst h; simp at h10
        · exact h
      have hlt : n / 10 < n := Nat.div_lt_self hpos (by omega)
      rw [digitsAux, dif_neg h10]
      rw [List.foldl_append, ih (n / 10) hlt a]
      have hmod : n % 10 < 10 := Nat.mod_lt n (by omega)
      simp only [List.foldl_cons, List.foldl_nil, List.length_append,
        List.length_singleton, charVal_digitChar (n % 10) hmod]
      have hdm : 10 * (n / 10) + n % 10 = n := Nat.div_add_mod n 10
      calc 10 * (a * 10 ^ (digitsAux (n / 10)).length + n / 10) + n % 10
          = a * 10 ^ ((digitsAux (n / 10)).length + 1)
              + (10 * (n / 10) + n % 10) := by ring
        _ = a * 10 ^ ((digitsAux (n / 10)).length + 1) + n := by rw [hdm]

theorem digitsAux_inj {m n : Nat} (hmn : digitsAux m = digitsAux n) : m = n := by
  have hm := foldl_digitsAux m 0
  have hn := foldl_digitsAux n 0
  rw [hmn] at hm
  omega

theorem natRepr_inj {m n : Nat} (hmn : Nat.repr m = Nat.repr n) : m = n := by
  unfold Nat.repr Nat.toDigits at hmn
  rw [toDigitsCore_eq_digitsAux (m+1) m [] (by omega),
    toDigitsCore_eq_digitsAux (n+1) n [] (by omega),
    List.append_nil, List.append_nil] at hmn
  exact digitsAux_inj (List.asString_inj.mp hmn)

/-! ## Record-insertion and children-cost lemmas -/

theorem recInsert_append {k : String} {r : Report} :
    ∀ {cs : List (String × Report)}, (∀ kr ∈ cs, kr.1 ≠ k) →
      recInsert cs k r = cs ++ [(k, r)] := by
  intro cs
  induction cs with
  | nil => intro _; rfl
  | cons kr rest ih =>
    obtain ⟨k0, r0⟩ := kr
    intro hk
    have hne : k0 ≠ k := hk (k0, r0) (by simp)
    rw [recInsert, if_neg hne, ih (fun y hy => hk y (by simp [hy]))]
    rfl

theorem goodChildrenB_append (l1 l2 : List (String × Report)) :
    goodChildrenB (l1 ++ l2) = (goodChildrenB l1 && goodChildrenB l2) := by
  induction l1 with
  | nil => simp [goodChildrenB]
  | cons kc rest ih => simp [goodChildrenB, ih, Bool.and_assoc]

theorem childrenSizes_append (l1 l2 : List (String × Report)) :
    childrenSizes (l1 ++ l2) = childrenSizes l1 + childrenSizes l2 := by
  simp [childrenSizes]

theorem childrenPropCost_append (l1 l2 : List (String × Report)) :
    childrenPropCost (l1 ++ l2) = childrenPropCost l1 + childrenPropCost l2 := by
  simp [childrenPropCost]

theorem funChildrenCost_append (l1 l2 : List (String × Report)) :
    funChildrenCost (l1 ++ l2) = funChildrenCost l1 + funChildrenCost l2 := by
  simp [funChildrenCost]

theorem funChildrenCost_no_proto :
    ∀ {cs : List (String × Report)}, (∀ kc ∈ cs, kc.1 ≠ "prototype") →
      funChildrenCost cs = childrenPropCost cs := by
  intro cs
  induction cs with
  | nil => intro _; rfl
  | cons kc rest ih =>
    intro hk
    rw [funChildrenCost, childrenPropCost] at *
    simp only [List.map_cons, List.sum_cons, if_neg (hk kc (by simp))]
    rw [ih (fun y hy => hk y (by simp [hy]))]

theorem string_append_inj {p x y : String} (hp : p ++ x = p ++ y) : x = y := by
  have h := congrArg String.data hp
  rw [String.data_append, String.data_append] at h
  exact String.ext (List.append_cancel_left h)

theorem keyLabel_ne_valLabel (x y : String) : ("key:" ++ x) ≠ ("val:" ++ y) := by
  intro heq
  have h := congrArg String.data heq
  rw [String.data_append, String.data_append] at h
  rw [show "key:".data = ['k', 'e', 'y', ':'] from rfl,
    show "val:".data = ['v', 'a', 'l', ':'] from rfl] at h
  simp only [List.cons_append, List.cons.injEq] at h
  exact absurd h.1 (by decide)

/-! ## Reading off `goodReportB` at each node type -/

theorem goodReportB_leaf (t : String) (s : Nat) :
    goodReportB ⟨t, s, none⟩ = true := rfl

theorem goodReportB_object (s : Nat) (cs : List (String × Report)) :
    goodReportB ⟨"object", s, some cs⟩
      = ((s == childrenPropCost cs) && goodChildrenB cs) := by
  rw [goodReportB, if_pos rfl]

theorem goodReportB_function (s : Nat) (cs : List (String × Report)) :
    goodReportB ⟨"function", s, some cs⟩
      = (decide (funChildrenCost cs ≤ s) && goodChildrenB cs) := by
  rw [goodReportB, if_neg (by decide), if_pos rfl]

theorem goodReportB_sizes (t : String) (s : Nat) (cs : List (String × Report))
    (ht1 : t ≠ "object") (ht2 : t ≠ "function") :
    goodReportB ⟨t, s, some cs⟩
      = ((s == childrenSizes cs) && goodChildrenB cs) := by
  rw [goodReportB, if_neg ht1, if_neg ht2]

/-! ## Specifications of the three child-walk loops of `_computeDetailed`

Each lemma assumes that the child computation `f` only produces reports
satisfying the invariant (in the main proof, the induction hypothesis at
one fuel less) and that the keys about to be inserted collide neither with
each other nor with the accumulated children, so that each `recInsert`
appends. -/

theorem detProps_spec (f : JSValue → List Nat → Option (Report × List Nat))
    (hf : ∀ v vis r vis', f v vis = some (r, vis') → goodReportB r = true) :
    ∀ (props : List (String × JSValue)) (s0 : Nat)
      (ch0 : List (String × Report)) (vis0 : List Nat)
      (out : Nat × List (String × Report) × List Nat),
      detProps f props s0 ch0 vis0 = some out →
      (props.map Prod.fst).Nodup →
      (∀ k ∈ props.map Prod.fst, ∀ kr ∈ ch0, kr.1 ≠ k) →
      ∃ newcs, out.2.1 = ch0 ++ newcs
        ∧ newcs.map Prod.fst = props.map Prod.fst
        ∧ out.1 = s0 + childrenPropCost newcs
        ∧ goodChildrenB newcs = true := by
  intro props
  induction props with
  | nil =>
    intro s0 ch0 vis0 out hout _ _
    rw [detProps] at hout
    injection hout with hout
    subst hout
    exact ⟨[], by simp, rfl, by simp [childrenPropCost], rfl⟩
  | cons kx rest ih =>
    obtain ⟨k, x⟩ := kx
    intro s0 ch0 vis0 out hout hnd hfresh
    rw [detProps] at hout
    cases hfx : f x vis0 with
    | none => rw [hfx] at hout; exact absurd hout (by simp)
    | some rv =>
      obtain ⟨r, vis1⟩ := rv
      rw [hfx] at hout
      simp only [] at hout
      have hkfresh : ∀ kr ∈ ch0, kr.1 ≠ k := hfresh k (by simp)
      rw [recInsert_append hkfresh] at hout
      have hnd0 : k ∉ rest.map Prod.fst ∧ (rest.map Prod.fst).Nodup := by
        simpa using hnd
      have hfresh' : ∀ k' ∈ rest.map Prod.fst,
          ∀ kr ∈ ch0 ++ [(k, r)], kr.1 ≠ k' := by
        intro k' hk' kr hkr
        rcases List.mem_append.mp hkr with hm | hm
        · exact hfresh k' (by simp [hk']) kr hm
        · simp only [List.mem_singleton] at hm
          subst hm
          intro hkk
          have hkk' : k = k' := hkk
          subst hkk'
          exact hnd0.1 hk'
      obtain ⟨newcs, hch, hkeys, hsize, hgood⟩ :=
        ih _ _ _ _ hout hnd0.2 hfresh'
      refine ⟨(k, r) :: newcs, ?_, ?_, ?_, ?_⟩
      · rw [hch, List.append_assoc, List.singleton_append]
      · simp [hkeys]
      · rw [hsize]
        simp only [childrenPropCost, List.map_cons, List.sum_cons]
        omega
      · simp [goodChildrenB, hgood, hf x vis0 r vis1 hfx]

theorem detIdxList_spec (f : JSValue → List Nat → Option (Report × List Nat))
    (hf : ∀ v vis r vis', f v vis = some (r, vis') → goodReportB r = true) :
    ∀ (elems : List JSValue) (i s0 : Nat)
      (ch0 : List (String × Report)) (vis0 : List Nat)
      (out : Nat × List (String × Report) × List Nat),
      detIdxList f elems i s0 ch0 vis0 = some out →
      (∀ j, i ≤ j → ∀ kr ∈ ch0, kr.1 ≠ Nat.repr j) →
      ∃ newcs, out.2.1 = ch0 ++ newcs
        ∧ out.1 = s0 + childrenSizes newcs
        ∧ goodChildrenB newcs = true := by
  intro elems
  induction elems with
  | nil =>
    intro i s0 ch0 vis0 out hout _
    rw [detIdxList] at hout
    injection hout with hout
    subst hout
    exact ⟨[], by simp, by simp [childrenSizes], rfl⟩
  | cons e rest ih =>
    intro i s0 ch0 vis0 out hout hfresh
    rw [detIdxList] at hout
    cases hfx : f e vis0 with
    | none => rw [hfx] at hout; exact absurd hout (by simp)
    | some rv =>
      obtain ⟨r, vis1⟩ := rv
      rw [hfx] at hout
      simp only [] at hout
      rw [recInsert_append (hfresh i (by omega))] at hout
      have hfresh' : ∀ j, i + 1 ≤ j →
          ∀ kr ∈ ch0 ++ [(Nat.repr i, r)], kr.1 ≠ Nat.repr j := by
        intro j hj kr hkr
        rcases List.mem_append.mp hkr with hm | hm
        · exact hfresh j (by omega) kr hm
        · simp only [List.mem_singleton] at hm
          subst hm
          intro hEq
          have := natRepr_inj hEq
          omega
      obtain ⟨newcs, hch, hsize, hgood⟩ := ih _ _ _ _ _ hout hfresh'
      refine ⟨(Nat.repr i, r) :: newcs, ?_, ?_, ?_⟩
      · rw [hch, List.append_assoc, List.singleton_append]
      · rw [hsize]
        simp only [childrenSizes, List.map_cons, List.sum_cons]
        omega
      · simp [goodChildrenB, hgood, hf e vis0 r vis1 hfx]

theorem detMapEntries_spec (h : Heap)
    (f : JSValue → List Nat → Option (Report × List Nat))
    (hf : ∀ v vis r vis', f v vis = some (r, vis') → goodReportB r = true) :
    ∀ (entries : List (JSValue × JSValue)) (s0 : Nat)
      (ch0 : List (String × Report)) (vis0 : List Nat)
      (out : Nat × List (String × Report) × List Nat),
      detMapEntries h f entries s0 ch0 vis0 = some out →
      ((entries.map (fun e => jsString h e.1)).Nodup) →
      (∀ e ∈ entries, ∀ kr ∈ ch0,
        kr.1 ≠ "key:" ++ jsString h e.1 ∧ kr.1 ≠ "val:" ++ jsString h e.1) →
      ∃ newcs, out.2.1 = ch0 ++ newcs
        ∧ out.1 = s0 + childrenSizes newcs
        ∧ goodChildrenB newcs = true := by
  intro entries
  induction entries with
  | nil =>
    intro s0 ch0 vis0 out hout _ _
    rw [detMapEntries] at hout
    injection hout with hout
    subst hout
    exact ⟨[], by simp, by simp [childrenSizes], rfl⟩
  | cons kv rest ih =>
    obtain ⟨k, v⟩ := kv
    intro s0 ch0 vis0 out hout hnd hfresh
    rw [detMapEntries] at hout
    cases hfk : f k vis0 with
    | none => rw [hfk] at hout; exact absurd hout (by simp)
    | some krv =>
      obtain ⟨kr, vis1⟩ := krv
      rw [hfk] at hout
      simp only [] at hout
      cases hfv : f v vis1 with
      | none => rw [hfv] at hout; exact absurd hout (by simp)
      | some vrv =>
        obtain ⟨vr, vis2⟩ := vrv
        rw [hfv] at hout
        simp only [] at hout
        have hkf : ∀ kr' ∈ ch0, kr'.1 ≠ "key:" ++ jsString h k := by
          intro kr' hkr'
          exact (hfresh (k, v) (by simp) kr' hkr').1
        rw [recInsert_append hkf] at hout
        have hvf : ∀ kr' ∈ ch0 ++ [("key:" ++ jsString h k, kr)],
            kr'.1 ≠ "val:" ++ jsString h k := by
          intro kr' hkr'
          rcases List.mem_append.mp hkr' with hm | hm
          · exact (hfresh (k, v) (by simp) kr' hm).2
          · simp only [List.mem_singleton] at hm
            subst hm
            exact keyLabel_ne_valLabel _ _
        rw [recInsert_append hvf] at hout
        rw [List.append_assoc] at hout
        have hnd0 : jsString h k ∉ rest.map (fun e => jsString h e.1)
            ∧ (rest.map (fun e => jsString h e.1)).Nodup := by
          simpa using hnd
        have hfresh' : ∀ e ∈ rest,
            ∀ kr' ∈ ch0 ++ ([("key:" ++ jsString h k, kr)]
                ++ [("val:" ++ jsString h k, vr)]),
            kr'.1 ≠ "key:" ++ jsString h e.1
              ∧ kr'.1 ≠ "val:" ++ jsString h e.1 := by
          intro e he kr' hkr'
          have hSe : jsString h k ≠ jsString h e.1 := by
            intro hEq
            exact hnd0.1 (by
              rw [hEq]
              exact List.mem_map.mpr ⟨e, he, rfl⟩)
          rcases List.mem_append.mp hkr' with hm | hm
          · exact hfresh e (by simp [he]) kr' hm
          · rcases List.mem_append.mp hm with hm1 | hm1 <;>
              simp only [List.mem_singleton] at hm1 <;> subst hm1
            · constructor
              · intro hEq
                exact hSe (string_append_inj hEq)
              · exact fun hEq => keyLabel_ne_valLabel _ _ hEq
            · constructor
              · exact fun hEq => keyLabel_ne_valLabel _ _ hEq.symm
              · intro hEq
                exact hSe (string_append_inj hEq)
        obtain ⟨newcs, hch, hsize, hgood⟩ := ih _ _ _ _ hout hnd0.2 hfresh'
        refine ⟨("key:" ++ jsString h k, kr) :: ("val:" ++ jsString h k, vr)
            :: newcs, ?_, ?_, ?_⟩
        · rw [hch]
          simp [List.append_assoc]
        · rw [hsize]
          simp only [childrenSizes, List.map_cons, List.sum_cons]
          omega
        · simp [goodChildrenB, hgood, hf k vis0 kr vis1 hfk, hf v vis1 vr vis2 hfv]

/-- Claim C9: `formatSize(1024, kilobyte)` is `"1.00 KB"`,
`formatSize(1024, byte)` is `"1024 B"`, and any unit outside the
recognised `B`/`KB`/`MB`/`GB` set formats exactly as bytes. -/
theorem c9_formatSize :
    Profiler.formatSize 1024 eMemoryUnit.KILOBYTE = "1.00 KB"
    ∧ Profiler.formatSize 1024 eMemoryUnit.BYTE = "1024 B"
    ∧ ∀ (bytes : Int) (unit : String),
        unit ≠ eMemoryUnit.BYTE → unit ≠ eMemoryUnit.KILOBYTE →
        unit ≠ eMemoryUnit.MEGABYTE → unit ≠ eMemoryUnit.GIGABYTE →
        Profiler.formatSize bytes unit = Profiler.formatSize bytes eMemoryUnit.BYTE := by
  refine ⟨?_, by decide, ?_⟩
  · unfold Profiler.formatSize
    rw [if_neg (by decide), if_pos rfl]
    unfold toFixed2
    rw [show ⌊((1024 : Int) : ℚ) / 1024 * 100 + 1 / 2⌋ = 100 by norm_num]
    decide
  · intro bytes unit h1 h2 h3 h4
    unfold Profiler.formatSize
    rw [if_neg h1, if_neg h2, if_neg h3, if_neg h4, if_pos rfl]

/-- Witness for C9: the fallback branch at a concrete unrecognised unit. -/
theorem c9_formatSize_witness :
    Profiler.formatSize 7 "XB" = Profiler.formatSize 7 eMemoryUnit.BYTE :=
  c9_formatSize.2.2 7 "XB" (by decide) (by decide) (by decide) (by decide)

/-- Claim C8: If no registered strategy's `supports` accepts the value (only
possible with a custom strategy list), `computeSize` returns 0; the
function is total, so no error is ever raised by `computeSize` itself. -/
theorem c8_no_match_returns_zero (strategies : List SizeStrategy) (v : JSValue)
    (hnone : ∀ s ∈ strategies, s.supports v = false) :
    computeSizeWith strategies v = 0 := by
  unfold computeSizeWith
  have : strategies.find? (fun s => s.supports v) = none := by
    rw [List.find?_eq_none]
    intro s hs
    simp [hnone s hs]
  rw [this]

/-- Witness for C8: a profiler configured with a single strategy that
supports nothing returns 0. -/
theorem c8_no_match_returns_zero_witness :
    computeSizeWith [{ supports := fun _ => false, sizeOfFn := fun _ => 7 }]
      JSValue.null = 0 := by
  refine c8_no_match_returns_zero _ _ ?_
  intro s hs
  simp only [List.mem_singleton] at hs
  subst hs
  rfl

/-- Claim C10: `computeDetailedSize` does not depend on the configured
strategy list: two profilers with arbitrary (different) strategy lists
produce identical reports for every value, and prepending a custom
strategy via `addStrategy` leaves the detailed report unchanged — custom
strategies and their `detailedSizeOf` hooks influence only
`computeSize`/`sizeOf`. -/
theorem c10_detailed_ignores_strategies (p q : Profiler) (ov : Overheads)
    (h : Heap) (fuel : Nat) (v : JSValue) :
    p.computeDetailedSize ov h fuel v = q.computeDetailedSize ov h fuel v
    ∧ ∀ s : SizeStrategy,
        (p.addStrategy s).computeDetailedSize ov h fuel v
          = p.computeDetailedSize ov h fuel v :=
  ⟨rfl, fun _ => rfl⟩

/-- Claim C7: For `a = {}; a.self = a;`, `sizeOf(a)` is the key cost of
`"self"` plus the reference constant plus the generic-object base cost:
the second encounter of `a` is costed as a single reference constant. -/
theorem c7_self_reference (ov : Overheads) (n : Nat) :
    sizeOfF ov selfRefHeap (n+1+1) (.ref 0)
      = some ("self".length * eMemorySize.STRING_CHAR + eMemorySize.REFERENCE
          + ov.DEFAULT_OBJECT) := by
  simp [sizeOfF, computeSizeF, selfRefHeap, sumProps, Profiler.isVisited,
    Profiler.markVisited]
  omega

/-- Claim C6: With the default strategies, `sizeOf` of an empty array, an
empty plain object, an empty Map and an empty Set each returns that
shape's fixed base overhead constant, which (the constants being positive,
as the spec states) is not zero. -/
theorem c6_empty_bases (ov : Overheads) (n : Nat)
    (hA : 0 < ov.DEFAULT_ARRAY) (hO : 0 < ov.DEFAULT_OBJECT)
    (hM : 0 < ov.DEFAULT_MAP) (hS : 0 < ov.DEFAULT_SET) :
    (sizeOfF ov emptiesHeap (n+1) (.ref 0) = some ov.DEFAULT_ARRAY
      ∧ sizeOfF ov emptiesHeap (n+1) (.ref 0) ≠ some 0)
    ∧ (sizeOfF ov emptiesHeap (n+1) (.ref 1) = some ov.DEFAULT_OBJECT
      ∧ sizeOfF ov emptiesHeap (n+1) (.ref 1) ≠ some 0)
    ∧ (sizeOfF ov emptiesHeap (n+1) (.ref 2) = some ov.DEFAULT_MAP
      ∧ sizeOfF ov emptiesHeap (n+1) (.ref 2) ≠ some 0)
    ∧ (sizeOfF ov emptiesHeap (n+1) (.ref 3) = some ov.DEFAULT_SET
      ∧ sizeOfF ov emptiesHeap (n+1) (.ref 3) ≠ some 0) := by
  refine ⟨⟨?_, ?_⟩, ⟨?_, ?_⟩, ⟨?_, ?_⟩, ⟨?_, ?_⟩⟩ <;>
    simp [sizeOfF, computeSizeF, emptiesHeap, sumList, sumProps, sumPairs,
      idxProps, Profiler.isVisited, Profiler.markVisited] <;> omega

/-- Witness for C6 at the representative overhead constants. -/
theorem c6_empty_bases_witness :
    (sizeOfF specOverheads emptiesHeap 1 (.ref 0) = some specOverheads.DEFAULT_ARRAY
      ∧ sizeOfF specOverheads emptiesHeap 1 (.ref 0) ≠ some 0)
    ∧ (sizeOfF specOverheads emptiesHeap 1 (.ref 1) = some specOverheads.DEFAULT_OBJECT
      ∧ sizeOfF specOverheads emptiesHeap 1 (.ref 1) ≠ some 0)
    ∧ (sizeOfF specOverheads emptiesHeap 1 (.ref 2) = some specOverheads.DEFAULT_MAP
      ∧ sizeOfF specOverheads emptiesHeap 1 (.ref 2) ≠ some 0)
    ∧ (sizeOfF specOverheads emptiesHeap 1 (.ref 3) = some specOverheads.DEFAULT_SET
      ∧ sizeOfF specOverheads emptiesHeap 1 (.ref 3) ≠ some 0) :=
  c6_empty_bases specOverheads 0 (by decide) (by decide) (by decide) (by decide)

/-- Claim C5, counterexample: The claim "`sizeOf(s)` is the character count
times the string-unit cost for ALL strings, including those beginning with
an http/https scheme prefix" fails at `s = "https:"`: `URLSizeStrategy`
(consulted before `DefaultSizeStrategy`) claims the plain string and adds
the generic-object base cost. -/
theorem c5_counterexample :
    sizeOfF specOverheads [] 1 (.str "https:")
      ≠ some ("https:".length * eMemorySize.STRING_CHAR) := by
  decide

/-- Claim C5, amended: For every primitive string NOT matching `/^https?:/`,
`sizeOf(s)` is the character count times the string-unit cost (so
`sizeOf("") = 0` and `sizeOf("ab") = 2 × string-unit`); a string matching
the pattern is instead claimed by `URLSizeStrategy` and costs the
generic-object base cost plus the character count times the string-unit
cost. -/
theorem c5_string_cost (ov : Overheads) (h : Heap) (n : Nat) (s : String) :
    (urlTest s = false →
      sizeOfF ov h (n+1) (.str s) = some (s.length * eMemorySize.STRING_CHAR))
    ∧ (urlTest s = true →
      sizeOfF ov h (n+1) (.str s)
        = some (ov.DEFAULT_OBJECT + s.length * eMemorySize.STRING_CHAR)) := by
  constructor <;> intro hs <;>
    simp [sizeOfF, computeSizeF, URLSizeStrategy.supports, jsString, jsStringF, hs]

/-- Witness for C5: both branches at concrete strings
(`"ab"` is not URL-like, `"https:"` is). -/
theorem c5_string_cost_witness :
    sizeOfF specOverheads [] 1 (.str "ab")
        = some ("ab".length * eMemorySize.STRING_CHAR)
    ∧ sizeOfF specOverheads [] 1 (.str "https:")
        = some (specOverheads.DEFAULT_OBJECT
            + "https:".length * eMemorySize.STRING_CHAR) :=
  ⟨(c5_string_cost specOverheads [] 0 "ab").1 (by decide),
   (c5_string_cost specOverheads [] 0 "https:").2 (by decide)⟩

/-- Claim C1, counterexample: The claim
"`computeDetailedSize(value).size = sizeOf(value)` for every input" fails
already at `value = null`: the detailed path costs `null` with the
UNDEFINED constant (weigh.ts:247) while the scalar path uses the NULL
constant (weigh.ts:11). -/
theorem c1_counterexample :
    (computeDetailedSizeF specOverheads [] 1 .null).map Report.size
      ≠ sizeOfF specOverheads [] 1 .null := by
  decide

/-- Claim C1, amended: The scalar and the detailed path agree on every
primitive input except `null` and except strings claimed by
`URLSizeStrategy`; they disagree on `null` (UNDEFINED vs NULL constant)
and on composites (the detailed path omits every `DEFAULT_*` base
overhead). -/
theorem c1_primitive_agreement (ov : Overheads) (h : Heap) (n : Nat)
    (v : JSValue) (hv : primAgrees h v = true) :
    (computeDetailedSizeF ov h (n+1) v).map Report.size = sizeOfF ov h (n+1) v := by
  cases v <;>
    simp_all [primAgrees, computeDetailedSizeF, sizeOfF, computeSizeF,
      computeDetailedF, Report.size, eMemorySize.NUMBER, eMemorySize.BOOLEAN,
      eMemorySize.BIGINT, eMemorySize.UNDEFINED]

/-- Witness for C1: agreement at the concrete string `"ab"`. -/
theorem c1_primitive_agreement_witness :
    (computeDetailedSizeF specOverheads [] 1 (.str "ab")).map Report.size
      = sizeOfF specOverheads [] 1 (.str "ab") :=
  c1_primitive_agreement specOverheads [] 0 (.str "ab") (by decide)

/-- Claim C2: The claim that `sizeOf` and `computeDetailedSize` terminate on
every cyclic value graph is refuted by the code: `ArrayStrategy` and
`FunctionSizeStrategy` never consult the visitation tracker, and
`isVisited`/`markVisited` are trivial for functions anyway (`typeof` is
`"function"`), so (i) `sizeOf` of the self-referential array `a = [];
a.push(a)` exhausts every recursion depth (the TS code recurses forever),
(ii) likewise `sizeOf` of a function carrying itself as an own property,
(iii) likewise `computeDetailedSize` of that function, while (iv) the
detailed path does terminate on the cyclic array, whose guard at
weigh.ts:284 works. -/
theorem c2_cyclic_nontermination (ov : Overheads) :
    (∀ (fuel : Nat) (vis : List Nat),
      computeSizeF ov cycArrHeap fuel (.ref 0) vis = none)
    ∧ (∀ (fuel : Nat) (vis : List Nat),
      computeSizeF ov cycFnHeap fuel (.ref 0) vis = none)
    ∧ (∀ (fuel : Nat) (vis : List Nat),
      computeDetailedF ov cycFnHeap fuel (.ref 0) vis = none)
    ∧ computeDetailedSizeF ov cycArrHeap 2 (.ref 0)
        = some ⟨"array", 8, some [("0", ⟨"array", 8, none⟩)]⟩ := by
  refine ⟨?_, ?_, ?_, ?_⟩
  · intro fuel
    induction fuel with
    | zero => intro vis; rfl
    | succ n ih =>
      intro vis
      simp only [cycArrHeap] at ih ⊢
      simp [computeSizeF, sumList, ih]
  · intro fuel
    induction fuel with
    | zero => intro vis; rfl
    | succ n ih =>
      intro vis
      simp only [cycFnHeap] at ih ⊢
      simp [computeSizeF, sumProps,
        (by decide : urlTest "function f() {}" = false), ih]
  · intro fuel
    induction fuel with
    | zero => intro vis; rfl
    | succ n ih =>
      intro vis
      simp only [cycFnHeap] at ih ⊢
      simp [computeDetailedF, detProps, Profiler.isVisited,
        Profiler.markVisited, ih]
  · rfl

/-- Evaluates `computeSize` of a primitive not claimed by `URLSizeStrategy` is its
table cost, and the visited set is untouched. -/
theorem primCost_eval (ov : Overheads) (h : Heap) (n : Nat) (v : JSValue)
    (hv : simplePrim h v = true) (vis : List Nat) :
    computeSizeF ov h (n+1) v vis = some (primCost v, vis) := by
  cases v <;> simp_all [simplePrim, computeSizeF, primCost]

/-- The element loop of `ArrayStrategy` over primitive elements sums their
table costs. -/
theorem sumList_prim (ov : Overheads) (h : Heap) (n : Nat)
    (elems : List JSValue) (hall : ∀ e ∈ elems, simplePrim h e = true) :
    ∀ (s : Nat) (vis : List Nat),
      sumList (computeSizeF ov h (n+1)) elems s vis
        = some (s + (elems.map primCost).sum, vis) := by
  induction elems with
  | nil => intro s vis; simp [sumList]
  | cons e rest ih =>
    intro s vis
    simp only [sumList, primCost_eval ov h n e (hall e (by simp)) vis]
    rw [ih (fun x hx => hall x (by simp [hx]))]
    rw [List.map_cons, List.sum_cons, Nat.add_assoc]

/-- A `for..in` walk over properties with primitive values sums, over the
keys the filter admits, the key cost plus the value's table cost. -/
theorem sumProps_prim (ov : Overheads) (h : Heap) (n : Nat)
    (keep : String → Bool) (props : List (String × JSValue))
    (hall : ∀ kv ∈ props, simplePrim h kv.2 = true) :
    ∀ (s : Nat) (vis : List Nat),
      sumProps (computeSizeF ov h (n+1)) keep props s vis
        = some (s + ((props.filter (fun kv => keep kv.1)).map
            (fun kv => kv.1.length * eMemorySize.STRING_CHAR + primCost kv.2)).sum,
            vis) := by
  induction props with
  | nil => intro s vis; simp [sumProps]
  | cons kv rest ih =>
    obtain ⟨k, x⟩ := kv
    intro s vis
    by_cases hk : keep k
    · simp only [sumProps, hk, if_true,
        primCost_eval ov h n x (hall (k, x) (by simp)) vis]
      rw [ih (fun y hy => hall y (by simp [hy]))]
      simp only [List.filter_cons, hk, if_true, List.map_cons, List.sum_cons,
        Option.some.injEq, Prod.mk.injEq]
      exact ⟨by omega, trivial⟩
    · simp only [sumProps, hk, if_false, Bool.false_eq_true]
      rw [ih (fun y hy => hall y (by simp [hy]))]
      simp [List.filter_cons, hk]

/-- A pair in `idxProps elems` carries an element of `elems`. -/
theorem idxProps_snd_mem {elems : List JSValue} {kv : String × JSValue}
    (hkv : kv ∈ idxProps elems) : kv.2 ∈ elems := by
  simp only [idxProps, List.mem_map] at hkv
  obtain ⟨p, hp, rfl⟩ := hkv
  exact List.get?_mem (List.mem_enum_iff_get?.mp hp)

/-- Claim C4, counterexample: The claim that index properties of an array
"are not charged a second time through the property walk" fails at the
one-element array `[0]`: the `for..in` walk of `ArrayStrategy`
(weigh.ts:180-185) enumerates the index key `"0"` and charges the key
cost and the element cost again, so `sizeOf([0])` is
`DEFAULT_ARRAY + NUMBER + ("0".length × string-unit + NUMBER)`, not
`DEFAULT_ARRAY + NUMBER`. -/
theorem c4_counterexample :
    sizeOfF specOverheads oneElemArrHeap 3 (.ref 0)
      ≠ some (specOverheads.DEFAULT_ARRAY + eMemorySize.NUMBER) := by
  decide

/-- Claim C4, amended: For an array of primitive (non-URL-like) elements
with primitive-valued extra properties, `sizeOf` returns the base array
overhead, plus the sum of the element costs, plus — for EVERY own
enumerable key except `"length"`, the index keys included — the key
length times the string-unit cost plus the cost of the value at that key:
index properties ARE charged a second time through the property walk. -/
theorem c4_array_cost (ov : Overheads) (h : Heap) (n : Nat) (a : Nat)
    (elems : List JSValue) (props : List (String × JSValue))
    (ha : h.get? a = some (.arr elems props))
    (helems : ∀ e ∈ elems, simplePrim h e = true)
    (hprops : ∀ kv ∈ props, simplePrim h kv.2 = true) (vis : List Nat) :
    computeSizeF ov h (n+1+1) (.ref a) vis
      = some (ov.DEFAULT_ARRAY + (elems.map primCost).sum
          + (((idxProps elems ++ props).filter (fun kv => !(kv.1 == "length"))).map
              (fun kv => kv.1.length * eMemorySize.STRING_CHAR + primCost kv.2)).sum,
          vis) := by
  have hall : ∀ kv ∈ idxProps elems ++ props, simplePrim h kv.2 = true := by
    intro kv hkv
    rcases List.mem_append.mp hkv with hl | hr
    · exact helems kv.2 (idxProps_snd_mem hl)
    · exact hprops kv hr
  rw [computeSizeF.eq_9]
  simp only [ha, sumList_prim ov h n elems helems,
    sumProps_prim ov h n _ _ hall, Option.some.injEq, Prod.mk.injEq]

/-- Claim C3, counterexample: The claim that every node's size equals its
own overhead plus the sum of its children "even when two Map entries
produce the same child label" is false: for
`new Map([[true, 0], ["true", 0]])` both entries produce the labels
`key:true`/`val:true` (weigh.ts:307-308 key both labels on `String(k)`),
the later entry overwrites the earlier children, and the map node's size
(4 + 8 + 8 + 8 = 28) exceeds its own overhead (0) plus the surviving
children's sizes (8 + 8 = 16), violating the invariant. -/
theorem c3_counterexample :
    (computeDetailedSizeF specOverheads collideHeap 3 (.ref 0)).map goodReportB
      = some false := by
  decide

/-- Claim C3, amended: Over a heap whose Map keys stringify pairwise
distinctly (and whose own-property key lists are duplicate-free, with no
enumerable `"prototype"` on functions — facts guaranteed for real JS
objects), every report produced by the detailed path satisfies the
per-node size invariant `goodReportB`; and a revisited `typeof`-`"object"`
composite always yields a leaf report with no children whose size is
exactly the reference constant.  (Functions are never tracked by the
visitation set, so only non-function composites can be "revisited".) -/
theorem c3_report_invariant (ov : Overheads) (h : Heap) (hOk : heapOk h = true) :
    (∀ (fuel : Nat) (v : JSValue) (vis : List Nat) (r : Report) (vis' : List Nat),
      computeDetailedF ov h fuel v vis = some (r, vis') → goodReportB r = true)
    ∧ (∀ (fuel : Nat) (a : Nat) (ho : HObject) (vis : List Nat),
      h.get? a = some ho → isFnObj ho = false → a ∈ vis →
      computeDetailedF ov h (fuel+1) (.ref a) vis
        = some (⟨hoTag ho, eMemorySize.REFERENCE, none⟩, vis)) := by
  have hOk' : ∀ ho ∈ h, hObjOk h ho = true := by
    simpa [heapOk, List.all_eq_true] using hOk
  constructor
  · intro fuel
    induction fuel with
    | zero =>
      intro v vis r vis' h0
      rw [computeDetailedF] at h0
      exact absurd h0 (by simp)
    | succ n ih =>
      intro v vis r vis' hout
      cases v
      case ref a =>
        simp only [computeDetailedF] at hout
        cases hget : h.get? a with
        | none =>
          rw [hget] at hout
          simp only [Option.some.injEq, Prod.mk.injEq] at hout
          obtain ⟨h1, -⟩ := hout
          exact h1 ▸ goodReportB_leaf _ _
        | some ho =>
          have hho : hObjOk h ho = true := hOk' ho (List.get?_mem hget)
          cases ho with
          | fn src props proto =>
            simp only [hget, Profiler.isVisited, Profiler.markVisited,
              Bool.false_and, Bool.false_eq_true, if_false] at hout
            cases hdp : detProps (computeDetailedF ov h n) props
                (src.length * eMemorySize.STRING_CHAR) [] vis with
            | none => rw [hdp] at hout; exact absurd hout (by simp)
            | some out3 =>
              rw [hdp] at hout
              obtain ⟨s1, ch1, vis1⟩ := out3
              simp only [hObjOk, Bool.and_eq_true, decide_eq_true_eq] at hho
              obtain ⟨newcs, hch, hkeys, hsize, hgood⟩ :=
                detProps_spec _ ih props _ [] vis _ hdp hho.1 (by simp)
              simp only [List.nil_append] at hch
              subst hch
              have hnp : ∀ kc ∈ ch1, kc.1 ≠ "prototype" := by
                intro kc hkc hkcp
                apply hho.2
                rw [← hkeys]
                exact List.mem_map.mpr ⟨kc, hkc, hkcp⟩
              have hfun1 : goodReportB ⟨"function", s1, some ch1⟩ = true := by
                rw [goodReportB_function]
                simp only [Bool.and_eq_true, decide_eq_true_eq]
                refine ⟨?_, hgood⟩
                rw [funChildrenCost_no_proto hnp]
                simp only at hsize
                omega
              cases proto with
              | none =>
                simp only [Option.some.injEq, Prod.mk.injEq] at hout
                obtain ⟨h1, -⟩ := hout
                exact h1 ▸ hfun1
              | some pv =>
                by_cases hpo : protoIsObject h pv
                · simp only [hpo, if_true] at hout
                  cases hpr : computeDetailedF ov h n pv vis1 with
                  | none => rw [hpr] at hout; exact absurd hout (by simp)
                  | some prv =>
                    obtain ⟨pr, vis2⟩ := prv
                    rw [hpr] at hout
                    simp only [Option.some.injEq, Prod.mk.injEq] at hout
                    obtain ⟨h1, -⟩ := hout
                    have hproto_fresh : ∀ kr ∈ ch1, kr.1 ≠ "prototype" := hnp
                    rw [recInsert_append hproto_fresh] at h1
                    refine h1 ▸ ?_
                    rw [goodReportB_function]
                    simp only [Bool.and_eq_true, decide_eq_true_eq]
                    constructor
                    · rw [funChildrenCost_append,
                        funChildrenCost_no_proto hnp,
                        show funChildrenCost [("prototype", pr)] = pr.size from by
                          simp [funChildrenCost]]
                      simp only at hsize
                      omega
                    · rw [goodChildrenB_append]
                      simp [hgood, goodChildrenB, ih pv vis1 pr vis2 hpr]
                · simp only [hpo, Bool.false_eq_true, if_false,
                    Option.some.injEq, Prod.mk.injEq] at hout
                  obtain ⟨h1, -⟩ := hout
                  exact h1 ▸ hfun1
          | arr elems aprops =>
            by_cases hv : a ∈ vis
            · simp only [hget] at hout
              rw [if_pos (show Profiler.isVisited h vis (JSValue.ref a) = true from by
                simp only [Profiler.isVisited, hget]; simp [hv])] at hout
              simp only [Option.some.injEq, Prod.mk.injEq] at hout
              obtain ⟨h1, -⟩ := hout
              exact h1 ▸ goodReportB_leaf _ _
            · simp only [hget] at hout
              rw [if_neg (show ¬ Profiler.isVisited h vis (JSValue.ref a) = true from by
                  simp only [Profiler.isVisited, hget]; simp [hv]),
                show Profiler.markVisited h vis (JSValue.ref a) = a :: vis from by
                  simp only [Profiler.markVisited, hget]] at hout
              cases hdl : detIdxList (computeDetailedF ov h n) elems 0 0 []
                  (a :: vis) with
              | none => rw [hdl] at hout; exact absurd hout (by simp)
              | some out3 =>
                rw [hdl] at hout
                obtain ⟨s, ch, vis''⟩ := out3
                simp only [Option.some.injEq, Prod.mk.injEq] at hout
                obtain ⟨h1, -⟩ := hout
                obtain ⟨newcs, hch, hsize, hgood⟩ :=
                  detIdxList_spec _ ih elems 0 0 [] (a :: vis) _ hdl (by simp)
                simp only [List.nil_append] at hch
                subst hch
                refine h1 ▸ ?_
                rw [goodReportB_sizes _ _ _ (by decide) (by decide)]
                simp only [Bool.and_eq_true, beq_iff_eq]
                refine ⟨?_, hgood⟩
                simp only at hsize
                omega
          | setObj elems =>
            by_cases hv : a ∈ vis
            · simp only [hget] at hout
              rw [if_pos (show Profiler.isVisited h vis (JSValue.ref a) = true from by
                simp only [Profiler.isVisited, hget]; simp [hv])] at hout
              simp only [Option.some.injEq, Prod.mk.injEq] at hout
              obtain ⟨h1, -⟩ := hout
              exact h1 ▸ goodReportB_leaf _ _
            · simp only [hget] at hout
              rw [if_neg (show ¬ Profiler.isVisited h vis (JSValue.ref a) = true from by
                  simp only [Profiler.isVisited, hget]; simp [hv]),
                show Profiler.markVisited h vis (JSValue.ref a) = a :: vis from by
                  simp only [Profiler.markVisited, hget]] at hout
              cases hdl : detIdxList (computeDetailedF ov h n) elems 0 0 []
                  (a :: vis) with
              | none => rw [hdl] at hout; exact absurd hout (by simp)
              | some out3 =>
                rw [hdl] at hout
                obtain ⟨s, ch, vis''⟩ := out3
                simp only [Option.some.injEq, Prod.mk.injEq] at hout
                obtain ⟨h1, -⟩ := hout
                obtain ⟨newcs, hch, hsize, hgood⟩ :=
                  detIdxList_spec _ ih elems 0 0 [] (a :: vis) _ hdl (by simp)
                simp only [List.nil_append] at hch
                subst hch
                refine h1 ▸ ?_
                rw [goodReportB_sizes _ _ _ (by decide) (by decide)]
                simp only [Bool.and_eq_true, beq_iff_eq]
                refine ⟨?_, hgood⟩
                simp only at hsize
                omega
          | mapObj entries =>
            by_cases hv : a ∈ vis
            · simp only [hget] at hout
              rw [if_pos (show Profiler.isVisited h vis (JSValue.ref a) = true from by
                simp only [Profiler.isVisited, hget]; simp [hv])] at hout
              simp only [Option.some.injEq, Prod.mk.injEq] at hout
              obtain ⟨h1, -⟩ := hout
              exact h1 ▸ goodReportB_leaf _ _
            · simp only [hget] at hout
              rw [if_neg (show ¬ Profiler.isVisited h vis (JSValue.ref a) = true from by
                  simp only [Profiler.isVisited, hget]; simp [hv]),
                show Profiler.markVisited h vis (JSValue.ref a) = a :: vis from by
                  simp only [Profiler.markVisited, hget]] at hout
              cases hdm : detMapEntries h (computeDetailedF ov h n) entries 0 []
                  (a :: vis) with
              | none => rw [hdm] at hout; exact absurd hout (by simp)
              | some out3 =>
                rw [hdm] at hout
                obtain ⟨s, ch, vis''⟩ := out3
                simp only [Option.some.injEq, Prod.mk.injEq] at hout
                obtain ⟨h1, -⟩ := hout
                simp only [hObjOk, decide_eq_true_eq] at hho
                obtain ⟨newcs, hch, hsize, hgood⟩ :=
                  detMapEntries_spec h _ ih entries 0 [] (a :: vis) _ hdm hho
                    (by simp)
                simp only [List.nil_append] at hch
                subst hch
                refine h1 ▸ ?_
                rw [goodReportB_sizes _ _ _ (by decide) (by decide)]
                simp only [Bool.and_eq_true, beq_iff_eq]
                refine ⟨?_, hgood⟩
                simp only at hsize
                omega
          | buffer content =>
            simp only [hget, Profiler.isVisited, Profiler.markVisited] at hout
            split at hout <;>
              (simp only [Option.some.injEq, Prod.mk.injEq] at hout
               obtain ⟨h1, -⟩ := hout
               exact h1 ▸ goodReportB_leaf _ _)
          | date =>
            simp only [hget, Profiler.isVisited, Profiler.markVisited] at hout
            split at hout <;>
              (simp only [Option.some.injEq, Prod.mk.injEq] at hout
               obtain ⟨h1, -⟩ := hout
               exact h1 ▸ goodReportB_leaf _ _)
          | regexp rsource rflags rprops =>
            simp only [hget, Profiler.isVisited, Profiler.markVisited] at hout
            split at hout <;>
              (simp only [Option.some.injEq, Prod.mk.injEq] at hout
               obtain ⟨h1, -⟩ := hout
               exact h1 ▸ goodReportB_leaf _ _)
          | typedArray tag bpe elems =>
            by_cases hv : a ∈ vis
            · simp only [hget] at hout
              rw [if_pos (show Profiler.isVisited h vis (JSValue.ref a) = true from by
                simp only [Profiler.isVisited, hget]; simp [hv])] at hout
              simp only [Option.some.injEq, Prod.mk.injEq] at hout
              obtain ⟨h1, -⟩ := hout
              exact h1 ▸ goodReportB_leaf _ _
            · simp only [hget] at hout
              rw [if_neg (show ¬ Profiler.isVisited h vis (JSValue.ref a) = true from by
                  simp only [Profiler.isVisited, hget]; simp [hv]),
                show Profiler.markVisited h vis (JSValue.ref a) = a :: vis from by
                  simp only [Profiler.markVisited, hget]] at hout
              cases hdp : detProps (computeDetailedF ov h n)
                  ((elems.enum).map (fun p => (Nat.repr p.1, JSValue.num p.2)))
                  0 [] (a :: vis) with
              | none => rw [hdp] at hout; exact absurd hout (by simp)
              | some out3 =>
                rw [hdp] at hout
                obtain ⟨s, ch, vis''⟩ := out3
                simp only [Option.some.injEq, Prod.mk.injEq] at hout
                obtain ⟨h1, -⟩ := hout
                have hnd : ((((elems.enum).map
                    (fun p => (Nat.repr p.1, JSValue.num p.2))).map Prod.fst)).Nodup := by
                  rw [List.map_map]
                  have heq : (Prod.fst ∘ fun p : Nat × Int =>
                      (Nat.repr p.1, JSValue.num p.2))
                      = (Nat.repr ∘ Prod.fst) := rfl
                  rw [heq, ← List.map_map]
                  exact (List.nodup_enum_map_fst elems).map
                    (fun _ _ hEq => natRepr_inj hEq)
                obtain ⟨newcs, hch, hkeys, hsize, hgood⟩ :=
                  detProps_spec _ ih _ _ [] (a :: vis) _ hdp hnd (by simp)
                simp only [List.nil_append] at hch
                subst hch
                refine h1 ▸ ?_
                rw [goodReportB_object]
                simp only [Bool.and_eq_true, beq_iff_eq]
                refine ⟨?_, hgood⟩
                simp only at hsize
                omega
          | obj props =>
            by_cases hv : a ∈ vis
            · simp only [hget] at hout
              rw [if_pos (show Profiler.isVisited h vis (JSValue.ref a) = true from by
                simp only [Profiler.isVisited, hget]; simp [hv])] at hout
              simp only [Option.some.injEq, Prod.mk.injEq] at hout
              obtain ⟨h1, -⟩ := hout
              exact h1 ▸ goodReportB_leaf _ _
            · simp only [hget] at hout
              rw [if_neg (show ¬ Profiler.isVisited h vis (JSValue.ref a) = true from by
                  simp only [Profiler.isVisited, hget]; simp [hv]),
                show Profiler.markVisited h vis (JSValue.ref a) = a :: vis from by
                  simp only [Profiler.markVisited, hget]] at hout
              cases hdp : detProps (computeDetailedF ov h n) props 0 []
                  (a :: vis) with
              | none => rw [hdp] at hout; exact absurd hout (by simp)
              | some out3 =>
                rw [hdp] at hout
                obtain ⟨s, ch, vis''⟩ := out3
                simp only [Option.some.injEq, Prod.mk.injEq] at hout
                obtain ⟨h1, -⟩ := hout
                simp only [hObjOk, decide_eq_true_eq] at hho
                obtain ⟨newcs, hch, hkeys, hsize, hgood⟩ :=
                  detProps_spec _ ih props _ [] (a :: vis) _ hdp hho (by simp)
                simp only [List.nil_append] at hch
                subst hch
                refine h1 ▸ ?_
                rw [goodReportB_object]
                simp only [Bool.and_eq_true, beq_iff_eq]
                refine ⟨?_, hgood⟩
                simp only at hsize
                omega
          | arrayBuffer byteLength =>
            simp only [hget, Profiler.isVisited, Profiler.markVisited] at hout
            split at hout <;>
              simp only [Option.some.injEq, Prod.mk.injEq] at hout <;>
              obtain ⟨h1, -⟩ := hout
            · exact h1 ▸ goodReportB_leaf _ _
            · exact h1 ▸ (by rw [goodReportB_object]; rfl)
          | dataView byteLength =>
            simp only [hget, Profiler.isVisited, Profiler.markVisited] at hout
            split at hout <;>
              simp only [Option.some.injEq, Prod.mk.injEq] at hout <;>
              obtain ⟨h1, -⟩ := hout
            · exact h1 ▸ goodReportB_leaf _ _
            · exact h1 ▸ (by rw [goodReportB_object]; rfl)
          | weakref =>
            simp only [hget, Profiler.isVisited, Profiler.markVisited] at hout
            split at hout <;>
              simp only [Option.some.injEq, Prod.mk.injEq] at hout <;>
              obtain ⟨h1, -⟩ := hout
            · exact h1 ▸ goodReportB_leaf _ _
            · exact h1 ▸ (by rw [goodReportB_object]; rfl)
          | url href =>
            simp only [hget, Profiler.isVisited, Profiler.markVisited] at hout
            split at hout <;>
              simp only [Option.some.injEq, Prod.mk.injEq] at hout <;>
              obtain ⟨h1, -⟩ := hout
            · exact h1 ▸ goodReportB_leaf _ _
            · exact h1 ▸ (by rw [goodReportB_object]; rfl)
      all_goals
        simp only [computeDetailedF, Option.some.injEq, Prod.mk.injEq] at hout
        obtain ⟨h1, -⟩ := hout
        exact h1 ▸ goodReportB_leaf _ _
  · intro fuel a ho vis hget hfn hmem
    cases ho <;>
      simp_all [computeDetailedF, Profiler.isVisited, Profiler.markVisited,
        hoTag, isFnObj]

/-- Witness for C3: the invariant holds for the report of the
self-referential object, whose `self` child is the reference leaf. -/
theorem c3_report_invariant_witness :
    goodReportB ⟨"object",
      "self".length * eMemorySize.STRING_CHAR + eMemorySize.REFERENCE,
      some [("self", ⟨"object", eMemorySize.REFERENCE, none⟩)]⟩ = true :=
  (c3_report_invariant specOverheads selfRefHeap (by decide)).1 3 (.ref 0) []
    ⟨"object", "self".length * eMemorySize.STRING_CHAR + eMemorySize.REFERENCE,
      some [("self", ⟨"object", eMemorySize.REFERENCE, none⟩)]⟩ [0] rfl

/-- Witness for C4 at the one-element array `[0]`:
`DEFAULT_ARRAY + NUMBER + ("0".length × string-unit + NUMBER)` in total. -/
theorem c4_array_cost_witness :
    computeSizeF specOverheads oneElemArrHeap 2 (.ref 0) []
      = some (specOverheads.DEFAULT_ARRAY + eMemorySize.NUMBER
          + ("0".length * eMemorySize.STRING_CHAR + eMemorySize.NUMBER), []) := by
  have := c4_array_cost specOverheads oneElemArrHeap 0 0 [.num 0] []
    rfl (by decide) (by decide) []
  simpa using this

end WeighJS
